import Mathlib

/-!
Verification development for the jobclerk dispatch engine.

The engine is embedded from `src/server/src/api.rs` (operations
`add_project`, `add_job`, `get_job`, `get_jobs`, `take_job`,
`update_job`, `handle_stuck_jobs`, `handle_request`) together with the
request/response types from `src/types/src/lib.rs`.  The database is a
pair of relational tables (projects, jobs) carried explicitly as state;
timestamps are naturals and JSON payloads an explicit AST.  The SQL
files `db/query_take_job.sql`, `db/query_handle_stuck_jobs.sql` and
`db/init.sql` are not part of the sources; the definitions that stand
for them are modelled from the specification and say so in their doc
comments.
-/

/-- JSON values (`serde_json::Value`); payloads are opaque to the engine. -/
inductive Json where
  | null
  | bool (b : Bool)
  | num (n : Int)
  | str (s : String)
  | arr (elems : List Json)
  | obj (fields : List (String × Json))

/-- Job lifecycle states, from `JobState` in `src/types/src/lib.rs`. -/
inductive JobState where
  | available
  | running
  | canceling
  | canceled
  | succeeded
  | failed
deriving DecidableEq

/-- Snake-case rendering of a `JobState`, as produced by the strum
`serialize_all = "snake_case"` derive. -/
def JobState.asStr : JobState → String
  | .available => "available"
  | .running => "running"
  | .canceling => "canceling"
  | .canceled => "canceled"
  | .succeeded => "succeeded"
  | .failed => "failed"

/-- A row of the `projects` table (schema from the spec, `init.sql` not in src). -/
structure ProjectRow where
  id : Int
  name : String
  heartbeat_expiration_millis : Int
  data : Json

/-- A row of the `jobs` table (schema from the spec, `init.sql` not in src). -/
structure JobRow where
  id : Int
  project : Int
  state : JobState
  created : Nat
  started : Option Nat
  finished : Option Nat
  heartbeat : Option Nat
  runner : Option String
  token : Option String
  priority : Int
  data : Json

/-- The relational store: the two tables plus the id sequences
(`id` columns are auto-assigned integers). -/
structure Db where
  projects : List ProjectRow
  jobs : List JobRow
  nextProjectId : Int
  nextJobId : Int

/-- `SELECT id FROM projects WHERE name = $1` (first match, `name` is unique). -/
def projectIdByName (db : Db) (name : String) : Option Int :=
  (db.projects.find? fun p => p.name == name).map fun p => p.id

/-- Error kind of the server crate (`Error` in `src/server/src/lib.rs`);
the payload-free variants only record the kind. -/
inductive Error where
  | BadRequest (msg : String)
  | NotFound
  | Db
  | Pool
  | Template
  | Parse

/-- `AddProjectRequest` from `src/types/src/lib.rs`. -/
structure AddProjectRequest where
  name : String
  heartbeat_expiration_millis : Int
  data : Json

/-- `AddProjectResponse`. -/
structure AddProjectResponse where
  project_id : Int

/-- `AddJobRequest`. -/
structure AddJobRequest where
  project_name : String
  data : Json

/-- `AddJobResponse`. -/
structure AddJobResponse where
  job_id : Int

/-- `GetJobRequest`. -/
structure GetJobRequest where
  project_name : String
  job_id : Int

/-- `GetJobsRequest`. -/
structure GetJobsRequest where
  project_name : String

/-- `TakeJobRequest`. -/
structure TakeJobRequest where
  project_name : String
  runner : String

/-- The take-job payload as used by the engine in `src/server/src/api.rs`
(`TakeJobResponse { job_id, job_token }`). -/
structure TakeJobResponse where
  job_id : Int
  job_token : String

/-- `UpdateJobRequest`. -/
structure UpdateJobRequest where
  project_name : String
  job_id : Int
  token : String
  state : Option JobState
  data : Option Json

/-- The `Job` struct returned by the read queries (no token, runner or
heartbeat columns are selected). -/
structure Job where
  id : Int
  project_name : String
  project_id : Int
  state : JobState
  created : Nat
  started : Option Nat
  finished : Option Nat
  priority : Int
  data : Json

/-- `Request` tagged union. -/
inductive Request where
  | AddProject (r : AddProjectRequest)
  | AddJob (r : AddJobRequest)
  | GetJob (r : GetJobRequest)
  | GetJobs (r : GetJobsRequest)
  | TakeJob (r : TakeJobRequest)
  | UpdateJob (r : UpdateJobRequest)
  | HandleStuckJobs

/-- `Response` tagged union as used by the engine in `src/server/src/api.rs`. -/
inductive Response where
  | AddProject (r : AddProjectResponse)
  | AddJob (r : AddJobResponse)
  | GetJob (j : Job)
  | GetJobs (js : List Job)
  | TakeJob (r : Option TakeJobResponse)
  | Empty
  | BadRequest (msg : String)
  | NotFound
  | InternalError

/-- The 62-character alphabet of rand's `Alphanumeric` distribution. -/
def alphanumericChars : List Char :=
  "ABCDEFGHIJKLMNOPQRSTUVWXYZabcdefghijklmnopqrstuvwxyz0123456789".toList

/-- `make_random_string` from `src/server/src/api.rs`: draws `length`
samples from the alphanumeric distribution.  The RNG is passed in as a
stream of draws (`thread_rng` is external entropy). -/
def make_random_string (rng : Nat → Fin 62) (length : Nat) : String :=
  String.mk ((List.range length).map fun i => alphanumericChars.getD (rng i).val 'A')

/-- `add_project` from `src/server/src/api.rs`.  Rejects a non-positive
heartbeat expiration before touching the database; the duplicate-name
branch is the uniqueness constraint of the schema.  Modelled from the
spec for the constraint itself: `init.sql` (projects.name UNIQUE) is
not in src, and a violated constraint surfaces as a database error. -/
def add_project (db : Db) (req : AddProjectRequest) :
    Db × Except Error AddProjectResponse :=
  if req.heartbeat_expiration_millis ≤ 0 then
    (db, .error (.BadRequest
      ("invalid heartbeat_expiration_millis: " ++ toString req.heartbeat_expiration_millis)))
  else if db.projects.any fun p => p.name == req.name then
    (db, .error .Db)
  else
    ({ db with
        projects := db.projects ++
          [⟨db.nextProjectId, req.name, req.heartbeat_expiration_millis, req.data⟩],
        nextProjectId := db.nextProjectId + 1 },
      .ok ⟨db.nextProjectId⟩)

/-- `add_job`: inserts a job resolving the project by name; a missing
project makes the insert fail on the not-null constraint, surfaced as a
database error.  Column defaults (`state = available`, `priority = 0`,
`created = now`) are the schema defaults. -/
def add_job (db : Db) (req : AddJobRequest) (now : Nat) :
    Db × Except Error AddJobResponse :=
  match projectIdByName db req.project_name with
  | none => (db, .error .Db)
  | some pid =>
      ({ db with
          jobs := db.jobs ++
            [{ id := db.nextJobId, project := pid, state := .available,
               created := now, started := none, finished := none,
               heartbeat := none, runner := none, token := none,
               priority := 0, data := req.data }],
          nextJobId := db.nextJobId + 1 },
        .ok ⟨db.nextJobId⟩)

/-- Converts a selected row to the wire `Job` struct. -/
def rowToJob (pname : String) (r : JobRow) : Job :=
  { id := r.id, project_name := pname, project_id := r.project,
    state := r.state, created := r.created, started := r.started,
    finished := r.finished, priority := r.priority, data := r.data }

/-- `get_job`: single-row read; an empty result is `NotFound`. -/
def get_job (db : Db) (req : GetJobRequest) : Except Error Job :=
  match db.jobs.filter fun r =>
      decide (projectIdByName db req.project_name = some r.project ∧ r.id = req.job_id) with
  | [] => .error .NotFound
  | r :: _ => .ok (rowToJob req.project_name r)

/-- `get_jobs`: all rows of the named project.  A missing project makes
the name subselect yield no id, so no row matches. -/
def get_jobs (db : Db) (req : GetJobsRequest) : Except Error (List Job) :=
  .ok ((db.jobs.filter fun r =>
      decide (projectIdByName db req.project_name = some r.project)).map
    (rowToJob req.project_name))

/-- Strictly-better comparison for the take-job ORDER BY: lower
priority first, then older creation. -/
def betterCandidate (best c : JobRow) : Bool :=
  decide (c.priority < best.priority ∨
    (c.priority = best.priority ∧ c.created < best.created))

/-- One step of the argmin fold. -/
def pickBetter (best c : JobRow) : JobRow :=
  if betterCandidate best c then c else best

/-- `ORDER BY priority, created LIMIT 1` over the candidate rows
(first listed row wins full ties). -/
def selectCandidate : List JobRow → Option JobRow
  | [] => none
  | j :: rest => some (rest.foldl pickBetter j)

/-- The candidate rows of the take-job selection: jobs of the project
in state `available`. -/
def takeCandidates (db : Db) (pid : Int) : List JobRow :=
  db.jobs.filter fun j => decide (j.project = pid ∧ j.state = JobState.available)

/-- The SET clause of the take-job statement: mark the row running and
install the lease. -/
def leaseRow (runner token : String) (now : Nat) (r : JobRow) : JobRow :=
  { r with state := .running, started := some now, heartbeat := some now,
           runner := some runner, token := some token }

/-- Modelled from the spec: `db/query_take_job.sql` is not in src.  One
atomic statement that picks the available job of the named project with
the smallest priority, ties broken by smallest created, marks it
running (`started = now`, `heartbeat = now`, `runner`, `token`) and
returns `(id, token)`; no candidate or no such project yields no rows. -/
def query_take_job (db : Db) (project_name runner token : String) (now : Nat) :
    Db × List (Int × String) :=
  match projectIdByName db project_name with
  | none => (db, [])
  | some pid =>
      match selectCandidate (takeCandidates db pid) with
      | none => (db, [])
      | some j =>
          ({ db with jobs := db.jobs.map fun r =>
              if r.id = j.id then leaseRow runner token now r else r },
            [(j.id, token)])

/-- `take_job` from `src/server/src/api.rs`: generates a 16-character
token, runs the atomic query, and maps no rows to `none`. -/
def take_job (db : Db) (req : TakeJobRequest) (rng : Nat → Fin 62) (now : Nat) :
    Db × Except Error (Option TakeJobResponse) :=
  let token := make_random_string rng 16
  match query_take_job db req.project_name req.runner token now with
  | (db', []) => (db', .ok none)
  | (db', (id, tok) :: _) => (db', .ok (some ⟨id, tok⟩))

/-- The WHERE clause of the `update_job` UPDATE in `src/server/src/api.rs`:
matching id, matching project via the name subselect, state running,
and matching token. -/
def updateMatches (db : Db) (req : UpdateJobRequest) (row : JobRow) : Bool :=
  decide (row.id = req.job_id ∧
    projectIdByName db req.project_name = some row.project ∧
    row.state = JobState.running ∧
    row.token = some req.token)

/-- The SET clause of the `update_job` UPDATE, by requested state:
heartbeat, voluntary surrender, or terminal finish; `data` always uses
COALESCE (a null request datum keeps the row's). -/
def applySet (req : UpdateJobRequest) (now : Nat) (row : JobRow) : JobRow :=
  match req.state with
  | none =>
      { row with heartbeat := some now, data := req.data.getD row.data }
  | some .available =>
      { row with state := .available, started := none, token := none,
                 data := req.data.getD row.data }
  | some s =>
      { row with state := s, finished := some now, token := none,
                 data := req.data.getD row.data }

/-- `update_job` from `src/server/src/api.rs`: `running` and
`canceling` are rejected before any SQL runs; otherwise one UPDATE is
executed and zero updated rows is `NotFound`. -/
def update_job (db : Db) (req : UpdateJobRequest) (now : Nat) :
    Db × Except Error Unit :=
  match req.state with
  | some .running => (db, .error (.BadRequest "invalid state: running"))
  | some .canceling => (db, .error (.BadRequest "invalid state: canceling"))
  | _ =>
      if db.jobs.any fun r => updateMatches db req r then
        ({ db with jobs := db.jobs.map fun r =>
            if updateMatches db req r then applySet req now r else r },
          .ok ())
      else
        (db, .error .NotFound)

/-- Whether a running job's heartbeat is older than its project's
expiration window. -/
def isStuck (db : Db) (now : Nat) (j : JobRow) : Bool :=
  j.state == JobState.running &&
  match j.heartbeat, db.projects.find? fun p => p.id == j.project with
  | some hb, some p => decide ((now : Int) - (hb : Int) > p.heartbeat_expiration_millis)
  | _, _ => false

/-- Modelled from the spec: `db/query_handle_stuck_jobs.sql` is not in
src.  One atomic statement that, for every running row whose heartbeat
is older than the project's `heartbeat_expiration_millis`, resets
`state = available`, `started = null`, `token = null`, `runner = null`. -/
def query_handle_stuck_jobs (db : Db) (now : Nat) : Db :=
  { db with jobs := db.jobs.map fun j =>
      if isStuck db now j then
        { j with state := .available, started := none, token := none, runner := none }
      else j }

/-- `handle_request_err` from `src/server/src/api.rs`. -/
def handle_request_err : Error → Response
  | .BadRequest s => .BadRequest s
  | .NotFound => .NotFound
  | .Db => .InternalError
  | .Pool => .InternalError
  | .Template => .InternalError
  | .Parse => .InternalError

/-- Maps an operation's result through the response constructor or the
error translation. -/
def liftResp {α : Type} (p : Db × Except Error α) (f : α → Response) : Db × Response :=
  (p.1, match p.2 with
    | .ok v => f v
    | .error e => handle_request_err e)

/-- `handle_request` (`handle_request_ok` + `handle_request_err`): the
single dispatch entry point. -/
def handle_request (db : Db) (req : Request) (rng : Nat → Fin 62) (now : Nat) :
    Db × Response :=
  match req with
  | .AddProject r => liftResp (add_project db r) (fun v => .AddProject v)
  | .AddJob r => liftResp (add_job db r now) (fun v => .AddJob v)
  | .GetJob r => liftResp (db, get_job db r) (fun v => .GetJob v)
  | .GetJobs r => liftResp (db, get_jobs db r) (fun v => .GetJobs v)
  | .TakeJob r => liftResp (take_job db r rng now) (fun v => .TakeJob v)
  | .UpdateJob r => liftResp (update_job db r now) (fun _ => .Empty)
  | .HandleStuckJobs => (query_handle_stuck_jobs db now, .Empty)

namespace JTypes

/-! The response types of the `jobclerk-types` crate
(`src/types/src/lib.rs`), which both transport adapters serialize onto
the wire, together with the serde JSON rendering of the take-job
variant.  serde derives render a newtype enum variant as a one-field
object keyed by the variant name, a struct as an object of its fields,
and an `Option` as the payload or `null`. -/

/-- `TakeJobResponseJob` from `src/types/src/lib.rs`. -/
structure TakeJobResponseJob where
  job_id : Int
  job_token : String

/-- `TakeJobResponse` from `src/types/src/lib.rs`: the payload of
`Response::TakeJob`, a struct with the single field `job`. -/
structure TakeJobResponse where
  job : Option TakeJobResponseJob

/-- serde rendering of `TakeJobResponseJob`. -/
def serializeTakeJobResponseJob (j : TakeJobResponseJob) : Json :=
  .obj [("job_id", .num j.job_id), ("job_token", .str j.job_token)]

/-- serde rendering of `TakeJobResponse`. -/
def serializeTakeJobResponse (r : TakeJobResponse) : Json :=
  .obj [("job", match r.job with
    | none => .null
    | some j => serializeTakeJobResponseJob j)]

/-- serde rendering of the externally tagged `Response::TakeJob`
variant of the `jobclerk-types` `Response` enum. -/
def serializeResponseTakeJob (r : TakeJobResponse) : Json :=
  .obj [("TakeJob", serializeTakeJobResponse r)]

end JTypes

/-! ### Derived predicates and helper lemmas -/

/-- A job state from which no further mutation is permitted. -/
def JobState.isTerminal : JobState → Bool
  | .canceled => true
  | .succeeded => true
  | .failed => true
  | _ => false

/-- The `jobs.id` column is a primary key: all rows carry distinct ids. -/
def UniqueJobIds (db : Db) : Prop :=
  db.jobs.Pairwise fun a b => a.id ≠ b.id

/-- The token/running invariant: a job is running exactly when it holds
a token. -/
def tokenInv (db : Db) : Prop :=
  ∀ j ∈ db.jobs, (j.state = JobState.running ↔ j.token ≠ none)

/-- The lexicographic dispatch order: smaller priority first, ties by
older creation. -/
def dispatchLE (a b : JobRow) : Prop :=
  a.priority < b.priority ∨ (a.priority = b.priority ∧ a.created ≤ b.created)

theorem dispatchLE_trans {a b c : JobRow} (hab : dispatchLE a b)
    (hbc : dispatchLE b c) : dispatchLE a c := by
  unfold dispatchLE at *
  rcases hab with h1 | ⟨h1, h1'⟩ <;> rcases hbc with h2 | ⟨h2, h2'⟩
  · exact Or.inl (h1.trans h2)
  · exact Or.inl (h2 ▸ h1)
  · exact Or.inl (h1 ▸ h2)
  · exact Or.inr ⟨h1.trans h2, h1'.trans h2'⟩

theorem pickBetter_le_left (a b : JobRow) : dispatchLE (pickBetter a b) a := by
  unfold pickBetter betterCandidate dispatchLE
  split
  · next h =>
      rcases of_decide_eq_true h with h' | ⟨h', h''⟩
      · exact Or.inl h'
      · exact Or.inr ⟨h', Nat.le_of_lt h''⟩
  · exact Or.inr ⟨rfl, Nat.le_refl _⟩

theorem pickBetter_le_right (a b : JobRow) : dispatchLE (pickBetter a b) b := by
  unfold pickBetter betterCandidate dispatchLE
  split
  · exact Or.inr ⟨rfl, Nat.le_refl _⟩
  · next h =>
      have h' := of_decide_eq_false (Bool.not_eq_true _ ▸ h)
      push_neg at h'
      rcases Int.lt_trichotomy a.priority b.priority with hlt | heq | hgt
      · exact Or.inl hlt
      · exact Or.inr ⟨heq, h'.2 heq.symm⟩
      · exact absurd hgt (by simpa using h'.1)

theorem pickBetter_cases (a b : JobRow) :
    pickBetter a b = a ∨ pickBetter a b = b := by
  unfold pickBetter; split
  · exact Or.inr rfl
  · exact Or.inl rfl

theorem foldl_pickBetter_mem (l : List JobRow) (j : JobRow) :
    l.foldl pickBetter j = j ∨ l.foldl pickBetter j ∈ l := by
  induction l generalizing j with
  | nil => exact Or.inl rfl
  | cons a t ih =>
      have := ih (pickBetter j a)
      rcases this with h | h
      · rcases pickBetter_cases j a with hc | hc
        · exact Or.inl (by simpa [List.foldl, hc] using h)
        · exact Or.inr (by simp [List.foldl] at h ⊢; exact Or.inl (h.trans hc))
      · exact Or.inr (by simp [List.foldl]; exact Or.inr h)

theorem foldl_pickBetter_min (l : List JobRow) (j : JobRow) :
    ∀ x ∈ j :: l, dispatchLE (l.foldl pickBetter j) x := by
  induction l generalizing j with
  | nil =>
      intro x hx
      simp at hx
      subst hx
      exact Or.inr ⟨rfl, Nat.le_refl _⟩
  | cons a t ih =>
      intro x hx
      have hmin := ih (pickBetter j a)
      show dispatchLE (t.foldl pickBetter (pickBetter j a)) x
      rcases List.mem_cons.mp hx with hx | hx
      · rw [hx]
        exact dispatchLE_trans (hmin _ (List.mem_cons_self _ _)) (pickBetter_le_left j a)
      · rcases List.mem_cons.mp hx with hx | hx
        · rw [hx]
          exact dispatchLE_trans (hmin _ (List.mem_cons_self _ _)) (pickBetter_le_right j a)
        · exact hmin x (List.mem_cons_of_mem _ hx)

theorem selectCandidate_mem {l : List JobRow} {j : JobRow}
    (h : selectCandidate l = some j) : j ∈ l := by
  cases l with
  | nil => simp [selectCandidate] at h
  | cons a t =>
      have h' : t.foldl pickBetter a = j := by simpa [selectCandidate] using h
      rcases foldl_pickBetter_mem t a with hm | hm
      · rw [← h', hm]; exact List.mem_cons_self _ _
      · rw [← h']; exact List.mem_cons_of_mem _ hm

theorem selectCandidate_min {l : List JobRow} {j : JobRow}
    (h : selectCandidate l = some j) : ∀ x ∈ l, dispatchLE j x := by
  cases l with
  | nil => simp [selectCandidate] at h
  | cons a t =>
      have h' : t.foldl pickBetter a = j := by simpa [selectCandidate] using h
      rw [← h']
      exact foldl_pickBetter_min t a

theorem map_ite_of_all_false {α : Type} {l : List α} {p : α → Bool} {f : α → α}
    (h : ∀ x ∈ l, p x = false) :
    (l.map fun r => if p r then f r else r) = l := by
  have : (l.map fun r => if p r then f r else r) = l.map id :=
    List.map_congr_left fun a ha => by simp [h a ha]
  simpa using this

theorem eq_of_mem_uniqueIds {l : List JobRow}
    (hu : l.Pairwise fun a b => a.id ≠ b.id) {r j : JobRow}
    (hr : r ∈ l) (hj : j ∈ l) (hid : r.id = j.id) : r = j := by
  induction l with
  | nil => cases hr
  | cons a t ih =>
      rcases List.pairwise_cons.mp hu with ⟨ha, ht⟩
      rcases List.mem_cons.mp hr with hr | hr <;> rcases List.mem_cons.mp hj with hj | hj
      · exact hr.trans hj.symm
      · exact absurd (hr ▸ hid) (ha j hj)
      · exact absurd (hj ▸ hid).symm (ha r hr)
      · exact ih ht hr hj

/-! ### Concrete fixtures for witnesses and counterexamples -/

/-- Project fixture, as in the integration test. -/
def projP : ProjectRow := ⟨1, "testproj", 250, Json.obj []⟩

/-- A running job holding a lease. -/
def runningJob : JobRow :=
  { id := 1, project := 1, state := .running, created := 0, started := some 1,
    finished := none, heartbeat := some 1, runner := some "testrunner",
    token := some "secrettoken00000", priority := 0, data := Json.obj [] }

/-- A database with one project and one running job. -/
def dbRunning : Db := ⟨[projP], [runningJob], 2, 2⟩

/-- An empty database. -/
def dbEmpty : Db := ⟨[], [], 1, 1⟩

/-- A deterministic draw stream for the token generator. -/
def rngZero : Nat → Fin 62 := fun _ => 0

/-! ### Claim theorems -/

/-- C5: every `update_job` request whose state field is `running` or
`canceling` is answered with `BadRequest` and the database is unchanged
(no write is performed). -/
theorem update_job_rejects_running_canceling (db : Db) (req : UpdateJobRequest)
    (rng : Nat → Fin 62) (now : Nat) (s : JobState) (hs : req.state = some s)
    (h : s = JobState.running ∨ s = JobState.canceling) :
    handle_request db (Request.UpdateJob req) rng now =
      (db, Response.BadRequest ("invalid state: " ++ JobState.asStr s)) := by
  rcases h with h | h <;> subst h <;>
    simp [handle_request, liftResp, update_job, hs, handle_request_err, JobState.asStr]

theorem update_job_rejects_running_canceling_witness :
    handle_request dbRunning
        (Request.UpdateJob ⟨"testproj", 1, "secrettoken00000", some JobState.running, none⟩)
        rngZero 7 =
      (dbRunning, Response.BadRequest ("invalid state: " ++ JobState.asStr JobState.running)) :=
  update_job_rejects_running_canceling dbRunning _ rngZero 7 JobState.running rfl (Or.inl rfl)

/-- C10: a `get_jobs` request naming a project that does not exist is
answered with a successful `GetJobs` carrying the empty list, not with
`NotFound` or `InternalError`. -/
theorem get_jobs_missing_project (db : Db) (req : GetJobsRequest)
    (rng : Nat → Fin 62) (now : Nat)
    (h : ∀ p ∈ db.projects, p.name ≠ req.project_name) :
    handle_request db (Request.GetJobs req) rng now = (db, Response.GetJobs []) := by
  have hnone : projectIdByName db req.project_name = none := by
    unfold projectIdByName
    rw [List.find?_eq_none.mpr]
    · rfl
    · intro p hp
      simpa using h p hp
  simp [handle_request, liftResp, get_jobs, hnone]

theorem get_jobs_missing_project_witness :
    handle_request dbRunning (Request.GetJobs ⟨"no-such-project"⟩) rngZero 7 =
      (dbRunning, Response.GetJobs []) :=
  get_jobs_missing_project dbRunning _ rngZero 7 (by decide)

/-- C2: an `update_job` request that reaches the UPDATE (its state field
is not `running`/`canceling`) and whose WHERE predicate — matching id,
matching project, state `running`, matching token — holds of no row, is
answered with `NotFound` and the database is unchanged; wrong token,
nonexistent job and non-running job all take this same path, so the
response does not distinguish them. -/
theorem update_job_zero_rows_notfound (db : Db) (req : UpdateJobRequest)
    (rng : Nat → Fin 62) (now : Nat)
    (hs1 : req.state ≠ some JobState.running)
    (hs2 : req.state ≠ some JobState.canceling)
    (h : ∀ j ∈ db.jobs, updateMatches db req j = false) :
    handle_request db (Request.UpdateJob req) rng now = (db, Response.NotFound) := by
  have hany : (db.jobs.any fun r => updateMatches db req r) = false := by
    rw [List.any_eq_false]
    intro x hx
    simp [h x hx]
  cases hstate : req.state with
  | none => simp [handle_request, liftResp, update_job, hstate, hany, handle_request_err]
  | some s =>
      cases s
      case running => exact absurd hstate hs1
      case canceling => exact absurd hstate hs2
      all_goals
        simp [handle_request, liftResp, update_job, hstate, hany, handle_request_err]

/-- Under unique ids, the UPDATE of `update_job` touches exactly the
rows whose id is the matched row's id. -/
theorem update_job_map_eq (db : Db) (req : UpdateJobRequest) (now : Nat)
    (hu : UniqueJobIds db) {j : JobRow} (hj : j ∈ db.jobs)
    (hmatch : updateMatches db req j = true) :
    (db.jobs.map fun r => if updateMatches db req r then applySet req now r else r) =
      db.jobs.map fun r => if r.id = j.id then applySet req now j else r := by
  apply List.map_congr_left
  intro a ha
  by_cases hid : a.id = j.id
  · have haj : a = j := eq_of_mem_uniqueIds hu ha hj hid
    subst haj
    simp [hmatch]
  · have hfalse : updateMatches db req a = false := by
      unfold updateMatches
      apply decide_eq_false
      intro hcon
      have hjid : j.id = req.job_id := (of_decide_eq_true hmatch).1
      exact hid (hcon.1.trans hjid.symm)
    simp [hfalse, hid]

/-- C7: a heartbeat `update_job` (no state field) on a running job with
the correct token answers `Empty`, sets the job's heartbeat to the
current time, applies the COALESCE rule to `data` (kept when the request
carries none, replaced when it carries some), and leaves every other
column of every row — and the projects table — unchanged. -/
theorem update_job_heartbeat_frame (db : Db) (req : UpdateJobRequest)
    (rng : Nat → Fin 62) (now : Nat) (hu : UniqueJobIds db) (j : JobRow)
    (hj : j ∈ db.jobs) (hstate : req.state = none)
    (hmatch : updateMatches db req j = true) :
    handle_request db (Request.UpdateJob req) rng now =
      ({ db with jobs := db.jobs.map fun r =>
          if r.id = j.id then
            { j with heartbeat := some now, data := req.data.getD j.data }
          else r },
        Response.Empty) := by
  have hany : (db.jobs.any fun r => updateMatches db req r) = true :=
    List.any_eq_true.mpr ⟨j, hj, hmatch⟩
  have hmap := update_job_map_eq db req now hu hj hmatch
  have happly : applySet req now j =
      { j with heartbeat := some now, data := req.data.getD j.data } := by
    simp [applySet, hstate]
  rw [happly] at hmap
  simp [handle_request, liftResp, update_job, hstate, hany, hmap]

theorem update_job_heartbeat_frame_witness :
    handle_request dbRunning
        (Request.UpdateJob ⟨"testproj", 1, "secrettoken00000", none, some (Json.str "x")⟩)
        rngZero 9 =
      ({ dbRunning with jobs := dbRunning.jobs.map fun r =>
          if r.id = runningJob.id then
            { runningJob with heartbeat := some 9, data := (some (Json.str "x")).getD runningJob.data }
          else r },
        Response.Empty) :=
  update_job_heartbeat_frame dbRunning _ rngZero 9
    (by simp [UniqueJobIds, dbRunning]) runningJob (by simp [dbRunning]) rfl (by decide)

theorem update_job_zero_rows_notfound_witness :
    handle_request dbRunning
        (Request.UpdateJob ⟨"testproj", 1, "xxxxxxxxxxxxxxxx", none, none⟩) rngZero 7 =
      (dbRunning, Response.NotFound) :=
  update_job_zero_rows_notfound dbRunning _ rngZero 7 (by decide) (by decide) (by decide)

/-- A job already finished (terminal state `succeeded`). -/
def finishedJob : JobRow :=
  { id := 1, project := 1, state := .succeeded, created := 0, started := some 1,
    finished := some 2, heartbeat := some 1, runner := some "testrunner",
    token := none, priority := 0, data := Json.obj [] }

/-- A database with one project and one terminal job. -/
def dbFinished : Db := ⟨[projP], [finishedJob], 2, 2⟩

/-- C3 refuted as stated: on a terminal job, an `update_job` whose state
field is `running` is answered with `BadRequest`, not `NotFound`. -/
theorem terminal_update_counterexample :
    (handle_request dbFinished
        (Request.UpdateJob ⟨"testproj", 1, "anytoken", some JobState.running, none⟩)
        rngZero 9).2 = Response.BadRequest "invalid state: running" ∧
    Response.BadRequest "invalid state: running" ≠ Response.NotFound := by
  refine ⟨rfl, ?_⟩
  intro h
  exact Response.noConfusion h

/-- C3 (amended): terminal states are absorbing — every later
`update_job` on a job in state canceled/succeeded/failed leaves the
database (hence every column of every job) unchanged; the response is
`NotFound` for any requested state other than `running`/`canceling`
(whatever the token and data), and `BadRequest` for those two. -/
theorem terminal_jobs_absorbing (db : Db) (req : UpdateJobRequest)
    (rng : Nat → Fin 62) (now : Nat) (hu : UniqueJobIds db) (j : JobRow)
    (hj : j ∈ db.jobs) (hterm : j.state.isTerminal = true)
    (hid : j.id = req.job_id) :
    (handle_request db (Request.UpdateJob req) rng now).1 = db ∧
    ((req.state ≠ some JobState.running ∧ req.state ≠ some JobState.canceling) →
        (handle_request db (Request.UpdateJob req) rng now).2 = Response.NotFound) ∧
    ((req.state = some JobState.running ∨ req.state = some JobState.canceling) →
        ∃ m, (handle_request db (Request.UpdateJob req) rng now).2 = Response.BadRequest m) := by
  have hnomatch : ∀ x ∈ db.jobs, updateMatches db req x = false := by
    intro x hx
    unfold updateMatches
    apply decide_eq_false
    rintro ⟨hxid, -, hxrun, -⟩
    have hxj : x = j := eq_of_mem_uniqueIds hu hx hj (hxid.trans hid.symm)
    rw [hxj] at hxrun
    rw [hxrun] at hterm
    simp [JobState.isTerminal] at hterm
  have hany : (db.jobs.any fun r => updateMatches db req r) = false := by
    rw [List.any_eq_false]
    intro x hx
    simp [hnomatch x hx]
  refine ⟨?_, ?_, ?_⟩
  · cases hstate : req.state with
    | none => simp [handle_request, liftResp, update_job, hstate, hany]
    | some s => cases s <;> simp [handle_request, liftResp, update_job, hstate, hany]
  · rintro ⟨hs1, hs2⟩
    cases hstate : req.state with
    | none => simp [handle_request, liftResp, update_job, hstate, hany, handle_request_err]
    | some s =>
        cases s
        case running => exact absurd hstate hs1
        case canceling => exact absurd hstate hs2
        all_goals
          simp [handle_request, liftResp, update_job, hstate, hany, handle_request_err]
  · rintro (hs | hs)
    · exact ⟨"invalid state: running",
        by simp [handle_request, liftResp, update_job, hs, handle_request_err]⟩
    · exact ⟨"invalid state: canceling",
        by simp [handle_request, liftResp, update_job, hs, handle_request_err]⟩

theorem terminal_jobs_absorbing_witness :
    (handle_request dbFinished
        (Request.UpdateJob ⟨"testproj", 1, "anytoken", some JobState.failed, none⟩)
        rngZero 9).1 = dbFinished ∧
    (handle_request dbFinished
        (Request.UpdateJob ⟨"testproj", 1, "anytoken", some JobState.failed, none⟩)
        rngZero 9).2 = Response.NotFound := by
  have h := terminal_jobs_absorbing dbFinished
    ⟨"testproj", 1, "anytoken", some JobState.failed, none⟩ rngZero 9
    (by simp [UniqueJobIds, dbFinished]) finishedJob (by simp [dbFinished]) (by decide) rfl
  exact ⟨h.1, h.2.1 ⟨by decide, by decide⟩⟩

/-- C9 refuted as stated: after a voluntary surrender back to
`available`, the job's `runner` and `heartbeat` columns are not null. -/
theorem runner_heartbeat_cleared_counterexample :
    ¬ (∀ j ∈ (handle_request dbRunning
          (Request.UpdateJob ⟨"testproj", 1, "secrettoken00000", some JobState.available, none⟩)
          rngZero 9).1.jobs,
        j.state ≠ JobState.running → j.runner = none ∧ j.heartbeat = none) := by
  decide

/-- C9 (amended): `update_job` clears `token` on every exit from
`running` (and clears `started` on surrender, sets `finished` on a
terminal finish), but it does not clear `runner` or `heartbeat`: after
a successful surrender or terminal update the job keeps its previous
runner and heartbeat values. -/
theorem update_job_retains_runner_heartbeat (db : Db) (req : UpdateJobRequest)
    (rng : Nat → Fin 62) (now : Nat) (j : JobRow)
    (hj : j ∈ db.jobs) (hmatch : updateMatches db req j = true)
    (hstate : req.state = some JobState.available ∨
       req.state = some JobState.canceled ∨ req.state = some JobState.succeeded ∨
       req.state = some JobState.failed) :
    ∃ j' ∈ (handle_request db (Request.UpdateJob req) rng now).1.jobs,
      j'.id = j.id ∧ j'.state ≠ JobState.running ∧ j'.token = none ∧
      j'.runner = j.runner ∧ j'.heartbeat = j.heartbeat := by
  have hany : (db.jobs.any fun r => updateMatches db req r) = true :=
    List.any_eq_true.mpr ⟨j, hj, hmatch⟩
  have hjobs : (handle_request db (Request.UpdateJob req) rng now).1.jobs =
      db.jobs.map fun r => if updateMatches db req r then applySet req now r else r := by
    rcases hstate with hs | hs | hs | hs <;>
      simp [handle_request, liftResp, update_job, hs, hany]
  rw [hjobs]
  refine ⟨applySet req now j, ?_, ?_⟩
  · have hm := List.mem_map_of_mem
      (fun r => if updateMatches db req r then applySet req now r else r) hj
    simpa [hmatch] using hm
  · rcases hstate with hs | hs | hs | hs <;> simp [applySet, hs]

theorem update_job_retains_runner_heartbeat_witness :
    ∃ j' ∈ (handle_request dbRunning
        (Request.UpdateJob ⟨"testproj", 1, "secrettoken00000", some JobState.available, none⟩)
        rngZero 9).1.jobs,
      j'.id = runningJob.id ∧ j'.state ≠ JobState.running ∧ j'.token = none ∧
      j'.runner = runningJob.runner ∧ j'.heartbeat = runningJob.heartbeat :=
  update_job_retains_runner_heartbeat dbRunning _ rngZero 9 runningJob
    (by simp [dbRunning]) (by decide) (Or.inl rfl)

/-- C8 refuted as stated: with a strictly positive
`heartbeat_expiration_millis` but an already-taken name, `add_project`
does not insert a row and does not return a project id — the schema
uniqueness failure surfaces as `InternalError`. -/
theorem add_project_duplicate_counterexample :
    (0 : Int) < 5 ∧
    handle_request dbRunning (Request.AddProject ⟨"testproj", 5, Json.obj []⟩) rngZero 0 =
      (dbRunning, Response.InternalError) :=
  ⟨by decide, rfl⟩

/-- C8 (amended): `add_project` answers `BadRequest` exactly when the
request's `heartbeat_expiration_millis` is ≤ 0, and then no project row
is created; with a positive expiration it inserts a row and returns the
fresh `project_id` when the name is unused, while a duplicate name
fails the schema uniqueness constraint and is answered `InternalError`
with no row inserted. -/
theorem add_project_spec (db : Db) (req : AddProjectRequest)
    (rng : Nat → Fin 62) (now : Nat) :
    (req.heartbeat_expiration_millis ≤ 0 →
      handle_request db (Request.AddProject req) rng now =
        (db, Response.BadRequest
          ("invalid heartbeat_expiration_millis: " ++ toString req.heartbeat_expiration_millis))) ∧
    (0 < req.heartbeat_expiration_millis → (∀ p ∈ db.projects, p.name ≠ req.name) →
      handle_request db (Request.AddProject req) rng now =
        ({ db with
            projects := db.projects ++
              [⟨db.nextProjectId, req.name, req.heartbeat_expiration_millis, req.data⟩],
            nextProjectId := db.nextProjectId + 1 },
         Response.AddProject ⟨db.nextProjectId⟩)) ∧
    (0 < req.heartbeat_expiration_millis → (∃ p ∈ db.projects, p.name = req.name) →
      handle_request db (Request.AddProject req) rng now = (db, Response.InternalError)) ∧
    (∀ m, (handle_request db (Request.AddProject req) rng now).2 = Response.BadRequest m →
      req.heartbeat_expiration_millis ≤ 0) := by
  refine ⟨?_, ?_, ?_, ?_⟩
  · intro h
    simp [handle_request, liftResp, add_project, h, handle_request_err]
  · intro hpos hfresh
    have h1 : ¬ req.heartbeat_expiration_millis ≤ 0 := not_le.mpr hpos
    have h2 : (db.projects.any fun p => p.name == req.name) = false := by
      rw [List.any_eq_false]
      intro p hp
      simpa using hfresh p hp
    simp [handle_request, liftResp, add_project, h1, h2]
  · intro hpos hdup
    have h1 : ¬ req.heartbeat_expiration_millis ≤ 0 := not_le.mpr hpos
    obtain ⟨p, hp, hname⟩ := hdup
    have h2 : (db.projects.any fun p => p.name == req.name) = true :=
      List.any_eq_true.mpr ⟨p, hp, by simp [hname]⟩
    simp [handle_request, liftResp, add_project, h1, h2, handle_request_err]
  · intro m hm
    by_contra hc
    push_neg at hc
    have h1 : ¬ req.heartbeat_expiration_millis ≤ 0 := not_le.mpr hc
    cases hany : (db.projects.any fun p => p.name == req.name) with
    | false => simp [handle_request, liftResp, add_project, h1, hany] at hm
    | true => simp [handle_request, liftResp, add_project, h1, hany, handle_request_err] at hm

/-- A fresh available job. -/
def availableJob : JobRow :=
  { id := 1, project := 1, state := .available, created := 0, started := none,
    finished := none, heartbeat := none, runner := none, token := none,
    priority := 0, data := Json.obj [] }

/-- A database with one project and one available job. -/
def dbAvail : Db := ⟨[projP], [availableJob], 2, 2⟩

/-- A job of the named project that is up for dispatch. -/
def availableIn (db : Db) (pname : String) (j : JobRow) : Prop :=
  projectIdByName db pname = some j.project ∧ j.state = JobState.available

instance (db : Db) (pname : String) (j : JobRow) : Decidable (availableIn db pname j) := by
  unfold availableIn
  infer_instance

theorem selectCandidate_eq_none {l : List JobRow}
    (h : selectCandidate l = none) : l = [] := by
  cases l with
  | nil => rfl
  | cons a t => simp [selectCandidate] at h

theorem alphanumericChars_length : alphanumericChars.length = 62 := by decide

theorem make_random_string_length (rng : Nat → Fin 62) (n : Nat) :
    (make_random_string rng n).length = n := by
  simp [make_random_string, String.length]

theorem make_random_string_mem_alphanumeric (rng : Nat → Fin 62) (n : Nat) :
    ∀ c ∈ (make_random_string rng n).data, c ∈ alphanumericChars := by
  intro c hc
  simp only [make_random_string, List.mem_map] at hc
  obtain ⟨i, _, hc⟩ := hc
  rw [← hc]
  have hlt : (rng i).val < alphanumericChars.length := by
    rw [alphanumericChars_length]
    exact (rng i).isLt
  rw [List.getD_eq_getElem alphanumericChars 'A' hlt]
  exact List.getElem_mem hlt

theorem take_job_eq_none (db : Db) (req : TakeJobRequest) (rng : Nat → Fin 62)
    (now : Nat) (hpid : projectIdByName db req.project_name = none) :
    take_job db req rng now = (db, .ok none) := by
  simp [take_job, query_take_job, hpid]

theorem take_job_eq_nosel (db : Db) (req : TakeJobRequest) (rng : Nat → Fin 62)
    (now : Nat) (pid : Int) (hpid : projectIdByName db req.project_name = some pid)
    (hsel : selectCandidate (takeCandidates db pid) = none) :
    take_job db req rng now = (db, .ok none) := by
  simp [take_job, query_take_job, hpid, hsel]

theorem take_job_eq_sel (db : Db) (req : TakeJobRequest) (rng : Nat → Fin 62)
    (now : Nat) (pid : Int) (j : JobRow)
    (hpid : projectIdByName db req.project_name = some pid)
    (hsel : selectCandidate (takeCandidates db pid) = some j) :
    take_job db req rng now =
      ({ db with jobs := db.jobs.map fun r =>
          if r.id = j.id then leaseRow req.runner (make_random_string rng 16) now r else r },
        .ok (some ⟨j.id, make_random_string rng 16⟩)) := by
  simp [take_job, query_take_job, hpid, hsel]

/-- C1: `take_job` is never an error: with no available job in the named
project (or no such project) it answers `TakeJob none`; and when it
answers with a job, that job is an available job of the named project
minimal in the dispatch order — smallest priority, ties broken by
smallest created — paired with the freshly generated token, a
16-character alphanumeric string; such an answer is guaranteed whenever
an available job exists. -/
theorem take_job_policy (db : Db) (req : TakeJobRequest) (rng : Nat → Fin 62)
    (now : Nat) :
    ((∀ j ∈ db.jobs, ¬ availableIn db req.project_name j) →
      (handle_request db (Request.TakeJob req) rng now).2 = Response.TakeJob none) ∧
    (∀ r, (handle_request db (Request.TakeJob req) rng now).2 = Response.TakeJob (some r) →
      ∃ j ∈ db.jobs, availableIn db req.project_name j ∧ r.job_id = j.id ∧
        (∀ k ∈ db.jobs, availableIn db req.project_name k → dispatchLE j k) ∧
        r.job_token = make_random_string rng 16 ∧
        r.job_token.length = 16 ∧
        (∀ c ∈ r.job_token.data, c ∈ alphanumericChars)) ∧
    ((∃ j ∈ db.jobs, availableIn db req.project_name j) →
      ∃ r, (handle_request db (Request.TakeJob req) rng now).2 = Response.TakeJob (some r)) := by
  cases hpid : projectIdByName db req.project_name with
  | none =>
      have hresp : (handle_request db (Request.TakeJob req) rng now).2 =
          Response.TakeJob none := by
        simp [handle_request, liftResp, take_job_eq_none db req rng now hpid]
      refine ⟨fun _ => hresp, ?_, ?_⟩
      · intro r hr
        rw [hresp] at hr
        simp at hr
      · rintro ⟨j, _, havail⟩
        unfold availableIn at havail
        rw [hpid] at havail
        exact absurd havail.1 (by simp)
  | some pid =>
      cases hsel : selectCandidate (takeCandidates db pid) with
      | none =>
          have hnil : takeCandidates db pid = [] := selectCandidate_eq_none hsel
          have hresp : (handle_request db (Request.TakeJob req) rng now).2 =
              Response.TakeJob none := by
            simp [handle_request, liftResp, take_job_eq_nosel db req rng now pid hpid hsel]
          refine ⟨fun _ => hresp, ?_, ?_⟩
          · intro r hr
            rw [hresp] at hr
            simp at hr
          · rintro ⟨j, hj, havail⟩
            unfold availableIn at havail
            rw [hpid] at havail
            have hjc : j ∈ takeCandidates db pid :=
              List.mem_filter.mpr ⟨hj,
                decide_eq_true ⟨(Option.some.inj havail.1).symm, havail.2⟩⟩
            rw [hnil] at hjc
            cases hjc
      | some j =>
          have hresp : (handle_request db (Request.TakeJob req) rng now).2 =
              Response.TakeJob (some ⟨j.id, make_random_string rng 16⟩) := by
            simp [handle_request, liftResp, take_job_eq_sel db req rng now pid j hpid hsel]
          have hjfilter := selectCandidate_mem hsel
          have hjmem : j ∈ db.jobs := (List.mem_filter.mp hjfilter).1
          have hjpred := of_decide_eq_true (List.mem_filter.mp hjfilter).2
          have hjavail : availableIn db req.project_name j := by
            unfold availableIn
            rw [hpid, hjpred.1]
            exact ⟨rfl, hjpred.2⟩
          refine ⟨?_, ?_, ?_⟩
          · intro hnone
            exact absurd hjavail (hnone j hjmem)
          · intro r hr
            rw [hresp] at hr
            obtain ⟨rid, rtok⟩ := r
            simp only [Response.TakeJob.injEq, Option.some.injEq,
              TakeJobResponse.mk.injEq] at hr
            obtain ⟨hrid, hrtok⟩ := hr
            subst hrid
            subst hrtok
            refine ⟨j, hjmem, hjavail, rfl, ?_, rfl,
              make_random_string_length rng 16,
              make_random_string_mem_alphanumeric rng 16⟩
            intro k hk hkavail
            apply selectCandidate_min hsel
            apply List.mem_filter.mpr
            unfold availableIn at hkavail
            rw [hpid] at hkavail
            exact ⟨hk, decide_eq_true ⟨(Option.some.inj hkavail.1).symm, hkavail.2⟩⟩
          · intro _
            exact ⟨⟨j.id, make_random_string rng 16⟩, hresp⟩

theorem add_project_jobs (db : Db) (r : AddProjectRequest) :
    (add_project db r).1.jobs = db.jobs := by
  unfold add_project
  split
  · rfl
  · split <;> rfl

theorem add_job_inv (db : Db) (r : AddJobRequest) (now : Nat) (h : tokenInv db) :
    tokenInv (add_job db r now).1 := by
  unfold add_job
  cases hpid : projectIdByName db r.project_name with
  | none => exact h
  | some pid =>
      intro j hj
      simp only [List.mem_append, List.mem_singleton] at hj
      rcases hj with hj | hj
      · exact h j hj
      · subst hj
        simp

theorem take_job_inv (db : Db) (req : TakeJobRequest) (rng : Nat → Fin 62)
    (now : Nat) (h : tokenInv db) : tokenInv (take_job db req rng now).1 := by
  cases hpid : projectIdByName db req.project_name with
  | none =>
      rw [take_job_eq_none db req rng now hpid]
      exact h
  | some pid =>
      cases hsel : selectCandidate (takeCandidates db pid) with
      | none =>
          rw [take_job_eq_nosel db req rng now pid hpid hsel]
          exact h
      | some j =>
          rw [take_job_eq_sel db req rng now pid j hpid hsel]
          intro x hx
          rcases List.mem_map.mp hx with ⟨a, ha, rfl⟩
          by_cases hid : a.id = j.id
          · simp [hid, leaseRow]
          · simp only [hid, if_false]
            exact h a ha

theorem tokenInv_applySet (req : UpdateJobRequest) (now : Nat)
    (hs1 : req.state ≠ some JobState.running)
    (hs2 : req.state ≠ some JobState.canceling) (a : JobRow)
    (ha : a.state = JobState.running ↔ a.token ≠ none) :
    ((applySet req now a).state = JobState.running ↔ (applySet req now a).token ≠ none) := by
  cases hstate : req.state with
  | none => simpa [applySet, hstate] using ha
  | some s =>
      cases s
      case running => exact absurd hstate hs1
      case canceling => exact absurd hstate hs2
      all_goals simp [applySet, hstate]

theorem update_job_db_cases (db : Db) (req : UpdateJobRequest) (now : Nat) :
    (update_job db req now).1 = db ∨
    ((update_job db req now).1 =
        { db with jobs := db.jobs.map fun r =>
            if updateMatches db req r then applySet req now r else r } ∧
      req.state ≠ some JobState.running ∧ req.state ≠ some JobState.canceling) := by
  cases hstate : req.state with
  | none =>
      simp only [update_job, hstate]
      split
      · exact Or.inr ⟨rfl, by simp [hstate], by simp [hstate]⟩
      · exact Or.inl rfl
  | some s =>
      cases s
      case running => exact Or.inl (by simp [update_job, hstate])
      case canceling => exact Or.inl (by simp [update_job, hstate])
      all_goals
        simp only [update_job, hstate]
        split
        · exact Or.inr ⟨rfl, by simp [hstate], by simp [hstate]⟩
        · exact Or.inl rfl

theorem update_job_inv (db : Db) (req : UpdateJobRequest) (now : Nat)
    (h : tokenInv db) : tokenInv (update_job db req now).1 := by
  rcases update_job_db_cases db req now with hdb | ⟨hdb, hs1, hs2⟩
  · rw [hdb]
    exact h
  · rw [hdb]
    intro x hx
    rcases List.mem_map.mp hx with ⟨a, ha, rfl⟩
    by_cases hm : updateMatches db req a = true
    · simp only [hm, if_true]
      exact tokenInv_applySet req now hs1 hs2 a (h a ha)
    · simp only [Bool.not_eq_true] at hm
      simp only [hm, Bool.false_eq_true, if_false]
      exact h a ha

theorem handle_stuck_jobs_inv (db : Db) (now : Nat) (h : tokenInv db) :
    tokenInv (query_handle_stuck_jobs db now) := by
  intro x hx
  simp only [query_handle_stuck_jobs] at hx
  rcases List.mem_map.mp hx with ⟨a, ha, rfl⟩
  by_cases hs : isStuck db now a = true
  · simp [hs]
  · simp only [Bool.not_eq_true] at hs
    simp only [hs, Bool.false_eq_true, if_false]
    exact h a ha

/-- C4: after every request handled by the engine — in particular
`add_job`, `take_job`, `update_job` and `handle_stuck_jobs` — every job
satisfies `state = running ⇔ token ≠ null`: `take_job` installs a token
exactly when it moves a job to `running`, and every transition out of
`running` (voluntary surrender, terminal finish, reaper reclaim) clears
the token. -/
theorem token_iff_running_preserved (db : Db) (req : Request)
    (rng : Nat → Fin 62) (now : Nat) (h : tokenInv db) :
    tokenInv (handle_request db req rng now).1 := by
  cases req with
  | AddProject r =>
      show tokenInv (add_project db r).1
      intro x hx
      rw [add_project_jobs] at hx
      exact h x hx
  | AddJob r => exact add_job_inv db r now h
  | GetJob r => exact h
  | GetJobs r => exact h
  | TakeJob r => exact take_job_inv db r rng now h
  | UpdateJob r => exact update_job_inv db r now h
  | HandleStuckJobs => exact handle_stuck_jobs_inv db now h

theorem token_iff_running_preserved_witness :
    tokenInv (handle_request dbAvail (Request.TakeJob ⟨"testproj", "testrunner"⟩) rngZero 5).1 :=
  token_iff_running_preserved dbAvail (Request.TakeJob ⟨"testproj", "testrunner"⟩) rngZero 5
    (by
      have hall : ∀ j ∈ dbAvail.jobs, (j.state = JobState.running ↔ j.token ≠ none) := by
        decide
      exact hall)

theorem take_job_policy_witness :
    (handle_request dbRunning (Request.TakeJob ⟨"testproj", "testrunner"⟩) rngZero 5).2 =
      Response.TakeJob none :=
  (take_job_policy dbRunning ⟨"testproj", "testrunner"⟩ rngZero 5).1 (by decide)

/-- C6 refuted as stated: the serde serialization of a successful
take-job response of the `jobclerk-types` crate is not the bare
`{job_id, job_token}` object under the `TakeJob` key — the payload is
wrapped in the `TakeJobResponse`'s single field `job`. -/
theorem takejob_serialization_counterexample :
    JTypes.serializeResponseTakeJob ⟨some ⟨1, "abcdabcdabcdabcd"⟩⟩ =
      Json.obj [("TakeJob", Json.obj [("job",
        Json.obj [("job_id", Json.num 1), ("job_token", Json.str "abcdabcdabcdabcd")])])] ∧
    JTypes.serializeResponseTakeJob ⟨some ⟨1, "abcdabcdabcdabcd"⟩⟩ ≠
      Json.obj [("TakeJob",
        Json.obj [("job_id", Json.num 1), ("job_token", Json.str "abcdabcdabcdabcd")])] := by
  refine ⟨rfl, ?_⟩
  intro h
  rw [show JTypes.serializeResponseTakeJob ⟨some ⟨1, "abcdabcdabcdabcd"⟩⟩ =
      Json.obj [("TakeJob", Json.obj [("job",
        Json.obj [("job_id", Json.num 1), ("job_token", Json.str "abcdabcdabcdabcd")])])]
    from rfl] at h
  simp only [Json.obj.injEq, List.cons.injEq, Prod.mk.injEq, and_true, true_and] at h
  exact List.noConfusion h.2

/-- C6 (amended): the JSON wire shape of `Response::TakeJob` in the
`jobclerk-types` crate is `{"TakeJob": {"job": P}}` where `P` is the
`{job_id, job_token}` object when a job was taken and `null` when none
was available — the `{job_id, job_token}` payload sits under the extra
wrapper field `job`, not directly under the `TakeJob` key. -/
theorem takejob_serialization_shape (j : JTypes.TakeJobResponseJob) :
    JTypes.serializeResponseTakeJob ⟨some j⟩ =
      Json.obj [("TakeJob", Json.obj [("job",
        Json.obj [("job_id", Json.num j.job_id), ("job_token", Json.str j.job_token)])])] ∧
    JTypes.serializeResponseTakeJob ⟨none⟩ =
      Json.obj [("TakeJob", Json.obj [("job", Json.null)])] :=
  ⟨rfl, rfl⟩

theorem add_project_spec_witness :
    handle_request dbEmpty (Request.AddProject ⟨"newproj", 250, Json.obj []⟩) rngZero 0 =
      ({ dbEmpty with
          projects := dbEmpty.projects ++
            [⟨dbEmpty.nextProjectId, "newproj", 250, Json.obj []⟩],
          nextProjectId := dbEmpty.nextProjectId + 1 },
       Response.AddProject ⟨dbEmpty.nextProjectId⟩) :=
  (add_project_spec dbEmpty ⟨"newproj", 250, Json.obj []⟩ rngZero 0).2.1 (by decide) (by decide)
